import Mathlib

/-!
Verification development for the translator repository's audit/diff subsystem
and its Vocab/Fixit service layer.

The Go sources are shallowly embedded:

* decoded JSON documents (Go `map[string]interface{}` values produced by
  `json.Unmarshal`) become the inductive `JValue`; a decoded object is an
  association list `List (String × JValue)` (Go map iteration order is
  arbitrary, so nothing below depends on entry order except where the code
  itself sorts);
* the JSON decoder (`encoding/json`) is an external library; it is modelled
  as an abstract `decode : String → Option (List (String × JValue))`
  parameter, `none` standing for any decode failure, which Go's
  `json.Unmarshal` leaves as a `nil` map (it validates the whole input before
  writing, so failures are all-or-nothing);
* Go `interface{}` inequality `aValue != bValue` on decoded JSON scalars is
  modelled by the structural `JValue.beq` (Go panics on uncomparable dynamic
  types such as two slices; the model totalizes that case, which no claim
  touches);
* `time.Time` values are modelled as `Int` nanoseconds; repository calls are
  modelled by passing their results (found record / returned error) as
  explicit arguments, and service results carry explicit flags recording
  which repository mutation was invoked.
-/

namespace Translator

/-- A decoded JSON value, as produced by Go's `json.Unmarshal` into
`map[string]interface{}` (numbers are simplified from float64 to `Int`;
no claim depends on numeric representation). -/
inductive JValue : Type where
  | jnull : JValue
  | jbool : Bool → JValue
  | jnum : Int → JValue
  | jstr : String → JValue
  | jarr : List JValue → JValue
  | jobj : List (String × JValue) → JValue

mutual

/-- Structural equality on decoded JSON values, modelling Go's `!=` on
`interface{}` leaves in `findDiffs` (src/internal/srv/audit.go line 335). -/
def JValue.beq : JValue → JValue → Bool
  | JValue.jnull, JValue.jnull => true
  | JValue.jbool x, JValue.jbool y => x == y
  | JValue.jnum x, JValue.jnum y => x == y
  | JValue.jstr x, JValue.jstr y => x == y
  | JValue.jarr xs, JValue.jarr ys => beqArr xs ys
  | JValue.jobj xs, JValue.jobj ys => beqObj xs ys
  | _, _ => false
termination_by v _ => sizeOf v

def beqArr : List JValue → List JValue → Bool
  | [], [] => true
  | x :: xs, y :: ys => JValue.beq x y && beqArr xs ys
  | _, _ => false
termination_by l _ => sizeOf l

def beqObj : List (String × JValue) → List (String × JValue) → Bool
  | [], [] => true
  | (k₁, v₁) :: xs, (k₂, v₂) :: ys => k₁ == k₂ && JValue.beq v₁ v₂ && beqObj xs ys
  | _, _ => false
termination_by l _ => sizeOf l

end

/-- `DiffResult` (src/internal/srv/audit.go lines 234-238). The Go
`interface{}` fields `Before`/`After` hold `nil` for removed/added markers,
modelled by `Option`. -/
structure DiffResult where
  key : String
  before : Option JValue
  after : Option JValue

/-- Go map lookup `b[key]` on a decoded object (first binding wins; decoded
Go maps have unique keys). -/
def lookupKey : List (String × JValue) → String → Option JValue
  | [], _ => none
  | (k, v) :: rest, key => if k = key then some v else lookupKey rest key

/-- The single quote character used by `fmt.Sprintf` patterns in `findDiffs`. -/
def sq : String := "\x27"

/-- Rendered key for a value difference: `fmt.Sprintf("'%s'", fullKey)`. -/
def renderValKey (fullKey : String) : String := sq ++ fullKey ++ sq

/-- Rendered key for a top-level missing key: `fmt.Sprintf("'%s' removed", fullKey)`. -/
def renderRemovedKey (fullKey : String) : String := sq ++ fullKey ++ "\x27 removed"

/-- Rendered key for a nested missing key: `fmt.Sprintf("'%s' added", fullKey)`. -/
def renderAddedKey (fullKey : String) : String := sq ++ fullKey ++ "\x27 added"

/-- Go's `sort.Slice(diffs, func(i, j int) bool { return diffs[i].Key < diffs[j].Key })`
at src/internal/srv/audit.go lines 346-348: the result is ordered by the
rendered key string (the model uses a mergesort; only sortedness and the
multiset of entries matter to any property below). -/
def sortDiffs (l : List DiffResult) : List DiffResult :=
  l.mergeSort (fun d₁ d₂ => d₁.key ≤ d₂.key)

mutual

/-- `findDiffs` (src/internal/srv/audit.go lines 314-351): iterate over the
entries of `a`, emit a marker for keys absent from `b` (labelled `removed`
at the top level and `added` at nested levels), recurse when both sides hold
objects, emit a before/after pair for differing leaves, and sort the result
by rendered key. -/
def findDiffs (a b : List (String × JValue)) (path : String) : List DiffResult :=
  sortDiffs (diffEntries a b path)
termination_by (sizeOf a, 1)

/-- The `for key, aValue := range a` loop body of `findDiffs`, entry by entry. -/
def diffEntries : List (String × JValue) → List (String × JValue) → String → List DiffResult
  | [], _, _ => []
  | (key, aValue) :: rest, b, path =>
      diffOne key aValue b path ++ diffEntries rest b path
termination_by l _ _ => (sizeOf l, 0)

/-- The contribution of one entry `(key, aValue)` of `a` in `findDiffs`. -/
def diffOne (key : String) (aValue : JValue) (b : List (String × JValue)) (path : String) :
    List DiffResult :=
  match lookupKey b key with
  | none =>
      if path = "" then [⟨renderRemovedKey (path ++ key), none, none⟩]
      else [⟨renderAddedKey (path ++ key), none, none⟩]
  | some bValue =>
      match aValue, bValue with
      | JValue.jobj aM, JValue.jobj bM => findDiffs aM bM (path ++ key ++ ".")
      | JValue.jobj _, _ => []
      | av, bv =>
          if JValue.beq av bv then []
          else [⟨renderValKey (path ++ key), some av, some bv⟩]
termination_by (sizeOf aValue, 0)

end

/-- Minimal JSON string escaping for the rendered output (Go's encoder also
escapes control and HTML characters; no claim inspects escaped content). -/
def jsonEscape (s : String) : String :=
  String.join (s.data.map fun c =>
    if c = '"' then "\\\"" else if c = '\\' then "\\\\" else String.singleton c)

mutual

/-- Rendering of a decoded JSON value back to text, modelling `json.Marshal`
of an `interface{}` (data only; no claim inspects this output). -/
def renderJValue : JValue → String
  | JValue.jnull => "null"
  | JValue.jbool b => if b then "true" else "false"
  | JValue.jnum n => toString n
  | JValue.jstr s => "\"" ++ jsonEscape s ++ "\""
  | JValue.jarr xs => "[" ++ renderArr xs ++ "]"
  | JValue.jobj fs => "\x7b" ++ renderObj fs ++ "\x7d"
termination_by v => sizeOf v

def renderArr : List JValue → String
  | [] => ""
  | [x] => renderJValue x
  | x :: rest => renderJValue x ++ "," ++ renderArr rest
termination_by l => sizeOf l

def renderObj : List (String × JValue) → String
  | [] => ""
  | [(k, v)] => "\"" ++ jsonEscape k ++ "\":" ++ renderJValue v
  | (k, v) :: rest => "\"" ++ jsonEscape k ++ "\":" ++ renderJValue v ++ "," ++ renderObj rest
termination_by l => sizeOf l

end

/-- `json.Marshal` of a `Before`/`After` field of `DiffResult` (`nil` renders
as `null`). -/
def renderOptJValue : Option JValue → String
  | none => "null"
  | some v => renderJValue v

/-- `json.Marshal` of one `DiffResult`. -/
def renderDiff (d : DiffResult) : String :=
  "\x7b\"key\":\"" ++ jsonEscape d.key ++ "\",\"before\":" ++ renderOptJValue d.before ++
    ",\"after\":" ++ renderOptJValue d.after ++ "\x7d"

def renderDiffList : List DiffResult → String
  | [] => ""
  | [d] => renderDiff d
  | d :: rest => renderDiff d ++ "," ++ renderDiffList rest

/-- `json.Marshal(diffs)` in `CompareJSON`: a nil (empty) slice marshals to
the string `null`, a non-empty one to a JSON array. -/
def renderDiffs (l : List DiffResult) : String :=
  match l with
  | [] => "null"
  | l => "[" ++ renderDiffList l ++ "]"

/-- The diff list computed inside `CompareJSON` (src/internal/srv/audit.go
lines 269-279): each input is decoded separately, a failed decode leaves
Go's `nil` map (here `none`, defaulted to the empty object), and `findDiffs`
runs on the two decoded objects with the empty path. -/
def compareDiffs (obj1 obj2 : Option (List (String × JValue))) : List DiffResult :=
  findDiffs (obj1.getD []) (obj2.getD []) ""

/-- `CompareJSON` (src/internal/srv/audit.go lines 269-279), with the decoder
abstracted: unmarshal both inputs ignoring errors, diff, marshal the result. -/
def CompareJSON (decode : String → Option (List (String × JValue)))
    (jsonStr1 jsonStr2 : String) : String :=
  renderDiffs (compareDiffs (decode jsonStr1) (decode jsonStr2))

/-! ## Domain models (src/internal/mdl) -/

/-- `mdl.Vocab` (src/internal/mdl/vocab.go lines 31-44); `Created` is a
`time.Time`, modelled as `Int` nanoseconds. -/
structure Vocab where
  ID : Int
  LearningLang : String
  FirstLang : String
  Created : Int
  Alternatives : String
  Skill : String
  Infinitive : String
  Pos : String
  Hint : String
  NumLearningWords : Int
  KnownLangCode : String
  LearningLangCode : String
  deriving DecidableEq

/-- `Vocab.Clone` (src/internal/mdl/vocab.go lines 57-72): field-by-field copy. -/
def Vocab.Clone (v : Vocab) : Vocab :=
  { ID := v.ID
    LearningLang := v.LearningLang
    FirstLang := v.FirstLang
    Created := v.Created
    Alternatives := v.Alternatives
    Skill := v.Skill
    Infinitive := v.Infinitive
    Pos := v.Pos
    Hint := v.Hint
    NumLearningWords := v.NumLearningWords
    KnownLangCode := v.KnownLangCode
    LearningLangCode := v.LearningLangCode }

/-- `Vocab.JSON` (src/internal/mdl/vocab.go lines 47-54): `json.Marshal` with
the struct's json tags, fields in declaration order. The `created` timestamp
is rendered from the `Int` model rather than RFC3339; no claim inspects it. -/
def Vocab.JSON (v : Vocab) : String :=
  "\x7b\"id\":" ++ toString v.ID ++
    ",\"learning_lang\":\"" ++ jsonEscape v.LearningLang ++
    "\",\"first_lang\":\"" ++ jsonEscape v.FirstLang ++
    "\",\"created\":\"" ++ toString v.Created ++
    "\",\"alternatives\":\"" ++ jsonEscape v.Alternatives ++
    "\",\"skill\":\"" ++ jsonEscape v.Skill ++
    "\",\"infinitive\":\"" ++ jsonEscape v.Infinitive ++
    "\",\"pos\":\"" ++ jsonEscape v.Pos ++
    "\",\"hint\":\"" ++ jsonEscape v.Hint ++
    "\",\"num_learning_words\":" ++ toString v.NumLearningWords ++
    ",\"known_lang_code\":\"" ++ jsonEscape v.KnownLangCode ++
    "\",\"learning_lang_code\":\"" ++ jsonEscape v.LearningLangCode ++ "\"\x7d"

/-- Go's `type StatusType string` (src/unnamed/part_008): a string type, not a
closed enum. -/
abbrev StatusType := String

def Pending : StatusType := "pending"

def InProgress : StatusType := "in_progress"

def Completed : StatusType := "completed"

/-- `mdl.Fixit` (src/unnamed/part_008 lines 43-51). -/
structure Fixit where
  ID : Int
  VocabID : Int
  Status : StatusType
  FieldName : String
  Comments : String
  CreatedBy : String
  Created : Int
  deriving DecidableEq

/-- `Fixit.Clone` (src/unnamed/part_008 lines 68-78). -/
def Fixit.Clone (f : Fixit) : Fixit :=
  { ID := f.ID
    VocabID := f.VocabID
    Status := f.Status
    FieldName := f.FieldName
    Comments := f.Comments
    CreatedBy := f.CreatedBy
    Created := f.Created }

/-- `Fixit.JSON` (src/unnamed/part_008 lines 53-61): the `Status` and
`Comments` fields carry no json tag, so Go marshals them under their Go
field names. -/
def Fixit.JSON (f : Fixit) : String :=
  "\x7b\"id\":" ++ toString f.ID ++
    ",\"vocab_id\":" ++ toString f.VocabID ++
    ",\"Status\":\"" ++ jsonEscape f.Status ++
    "\",\"field_name\":\"" ++ jsonEscape f.FieldName ++
    "\",\"Comments\":\"" ++ jsonEscape f.Comments ++
    "\",\"created_by\":\"" ++ jsonEscape f.CreatedBy ++
    "\",\"created\":\"" ++ toString f.Created ++ "\"\x7d"

/-- `mdl.Audit` (src/unnamed/part_009 lines 25-35). `ID` and `Created` are
assigned by the repository; the service constructs the record with their
zero values. -/
structure Audit where
  ID : Int
  ObjectID : Int
  TableName : String
  Diff : String
  Before : String
  After : String
  Comments : String
  CreatedBy : String
  Created : Int
  deriving DecidableEq

/-- `mdl.Duration` (src/unnamed/part_007 appendix lines 268-271): a closed
time range, times as `Int` nanoseconds. -/
structure Duration where
  Start : Int
  End : Int
  deriving DecidableEq

/-! ## Field validation (src/unnamed/part_004) -/

/-- `validateFieldContent` (src/unnamed/part_004 lines 33-44):
`utf8.RuneCountInString` is the rune count, i.e. `String.length`;
`strings.ContainsAny(v, "<>")` and `strings.ContainsAny(v, "\"/")` test for
any of the listed characters. Returns `some errorMessage` on failure. -/
def validateFieldContent (fieldValue fieldName : String) (maxLength : Nat) : Option String :=
  if fieldValue.length > maxLength then
    some (fieldName ++ " must be shorter than " ++ toString maxLength ++ " characters")
  else if (fieldValue.data.any fun c => c = '<' ∨ c = '>') ∧
      (fieldValue.data.any fun c => c = '"' ∨ c = '/') then
    some (fieldName ++ " contains invalid characters")
  else none

/-- The regex `^[a-z]{2}$` of `validateVocab`: exactly two lowercase ASCII
letters. -/
def isLangCode (s : String) : Prop :=
  s.length = 2 ∧ s.data.all fun c => 'a' ≤ c ∧ c ≤ 'z'

instance (s : String) : Decidable (isLangCode s) := by
  unfold isLangCode
  infer_instance

/-- `validateVocabUpdate` (src/unnamed/part_007 lines 239-261). -/
def validateVocabUpdate (vocab : Vocab) : Option String :=
  match validateFieldContent vocab.FirstLang "First language" 40 with
  | some e => some e
  | none =>
  match validateFieldContent vocab.Alternatives "Alternatives" 255 with
  | some e => some e
  | none =>
  match validateFieldContent vocab.Skill "Skill" 100 with
  | some e => some e
  | none =>
  match validateFieldContent vocab.Infinitive "Infinitive" 40 with
  | some e => some e
  | none =>
  match validateFieldContent vocab.Pos "Part of speech" 40 with
  | some e => some e
  | none =>
  match validateFieldContent vocab.Hint "Hint" 255 with
  | some e => some e
  | none => none

/-- `validateVocab` (src/unnamed/part_007 lines 198-218). -/
def validateVocab (vocab : Vocab) : Option String :=
  match validateFieldContent vocab.LearningLang "Learning language" 40 with
  | some e => some e
  | none =>
  if vocab.LearningLang.length = 0 then some "learning lang field is required"
  else
  match validateVocabUpdate vocab with
  | some e => some e
  | none =>
  if isLangCode vocab.KnownLangCode ∧ isLangCode vocab.LearningLangCode then none
  else some "Language codes must consist of two lowercase letters"

/-- `validateFixit` (src/internal/srv/fixit.go lines 161-171). -/
def validateFixit (fixit : Fixit) : Option String :=
  match validateFieldContent fixit.FieldName "Field Name" 40 with
  | some e => some e
  | none =>
  match validateFieldContent fixit.Comments "Commits" 2000 with
  | some e => some e
  | none => none

/-! ## Audit service (src/internal/srv/audit.go) -/

/-- Result of an audit-building call: the returned error, and the record
handed to `repo.CreateAudit` (`none` when the repository is never invoked). -/
structure AuditOutcome where
  err : Option String
  attempted : Option Audit
  deriving DecidableEq

/-- `AuditService.CreateAudit` (src/internal/srv/audit.go lines 206-232):
validate the comment length, compute the diff string when a before-state is
present, assemble the record, persist it. `repoErr` is the result of the
`repo.CreateAudit` call. -/
def CreateAudit (decode : String → Option (List (String × JValue)))
    (repoErr : Option String) (tableName : String) (objectId : Int)
    (comments createdBy beforeJson afterJson : String) : AuditOutcome :=
  match validateFieldContent comments "comments" 1000 with
  | some e => ⟨some e, none⟩
  | none =>
    let diff := if beforeJson.length > 0 then CompareJSON decode beforeJson afterJson else ""
    let audit : Audit :=
      { ID := 0, ObjectID := objectId, TableName := tableName, Diff := diff,
        Before := beforeJson, After := afterJson, Comments := comments,
        CreatedBy := createdBy, Created := 0 }
    ⟨repoErr, some audit⟩

/-- `AuditService.CreateVocabAudit` (src/internal/srv/audit.go lines 117-137):
reject a nil `after`, reject mismatched identities, serialize both states and
delegate to `CreateAudit`. -/
def CreateVocabAudit (decode : String → Option (List (String × JValue)))
    (repoErr : Option String) (comments createdBy : String)
    (before after : Option Vocab) : AuditOutcome :=
  match after with
  | none => ⟨some "after value for vocab is required", none⟩
  | some a =>
    match before with
    | some b =>
      if b.ID ≠ a.ID then
        ⟨some ("audit before id " ++ toString b.ID ++ " and after id " ++ toString a.ID ++
          " mismatch"), none⟩
      else CreateAudit decode repoErr "vocab" a.ID comments createdBy b.JSON a.JSON
    | none => CreateAudit decode repoErr "vocab" a.ID comments createdBy "" a.JSON

/-- `AuditService.CreateFixitAudit` (src/internal/srv/audit.go lines 165-184). -/
def CreateFixitAudit (decode : String → Option (List (String × JValue)))
    (repoErr : Option String) (comments createdBy : String)
    (before after : Option Fixit) : AuditOutcome :=
  match after with
  | none => ⟨some "after value for fixit is required", none⟩
  | some a =>
    match before with
    | some b =>
      if b.ID ≠ a.ID then
        ⟨some ("fixit before id " ++ toString b.ID ++ " and after id " ++ toString a.ID ++
          " mismatch"), none⟩
      else CreateAudit decode repoErr "fixit" a.ID comments createdBy b.JSON a.JSON
    | none => CreateAudit decode repoErr "fixit" a.ID comments createdBy "" a.JSON

/-! ## Vocab and Fixit services (src/unnamed/part_007, src/internal/srv/fixit.go) -/

/-- Result of a create call: the returned error and whether the repository
insert was invoked. -/
structure CreateOutcome where
  err : Option String
  repoCreateCalled : Bool
  deriving DecidableEq

/-- `VocabService.CreateVocab` (src/unnamed/part_007 lines 105-121).
`findErr`/`existing` model the result of `repo.FindVocabByLearningLang`,
`createErr` the result of `repo.CreateVocab`, `auditRepoErr` the result of
the audit repository insert. The Go code assigns
`err = s.repo.CreateVocab(vocab)` and immediately overwrites `err` with the
result of `s.auditService.CreateVocabAudit(...)` before returning, so the
returned error is the audit result and `createErr` is discarded. -/
def CreateVocab (decode : String → Option (List (String × JValue))) (vocab : Vocab)
    (findErr : Option String) (existing : Option Vocab)
    (createErr : Option String) (auditRepoErr : Option String) : CreateOutcome :=
  match validateVocab vocab with
  | some e => ⟨some e, false⟩
  | none =>
    match findErr, existing with
    | none, some ex =>
        ⟨some ("vocab with learning lang " ++ vocab.LearningLang ++ " and id " ++
          toString ex.ID ++ " already exists"), false⟩
    | _, _ =>
        let _ := createErr
        ⟨(CreateVocabAudit decode auditRepoErr "created vocab" "sys" none (some vocab)).err,
          true⟩

/-- `FixitService.CreateFixit` (src/internal/srv/fixit.go lines 81-92): same
shape as `CreateVocab` (including the overwrite of the repository create
error by the audit result), without the duplicate check. -/
def CreateFixit (decode : String → Option (List (String × JValue))) (fixit : Fixit)
    (createErr : Option String) (auditRepoErr : Option String) : CreateOutcome :=
  match validateFixit fixit with
  | some e => ⟨some e, false⟩
  | none =>
      let _ := createErr
      ⟨(CreateFixitAudit decode auditRepoErr "created fixit" "sys" none (some fixit)).err,
        true⟩

/-- Result of an update call: the returned record, the returned error, and
whether the repository update was invoked. -/
structure UpdateVocabOutcome where
  vocab : Option Vocab
  err : Option String
  repoUpdateCalled : Bool
  deriving DecidableEq

/-- `VocabService.UpdateVocab` (src/unnamed/part_007 lines 123-166):
validate, load the stored record (`findErr`/`stored` model
`repo.FindVocabByID`), clone it, reject when none of the seven mutable
fields differ, otherwise copy exactly those fields onto the clone, persist
(`updateErr` models `repo.UpdateVocab`) and write an update audit. -/
def UpdateVocab (decode : String → Option (List (String × JValue))) (updating : Vocab)
    (findErr : Option String) (stored : Option Vocab)
    (updateErr : Option String) (auditRepoErr : Option String) : UpdateVocabOutcome :=
  match validateVocabUpdate updating with
  | some e => ⟨none, some e, false⟩
  | none =>
    match findErr with
    | some e => ⟨none, some e, false⟩
    | none =>
      match stored with
      | none => ⟨none, some ("expected to find existing vocab with id " ++
          toString updating.ID), false⟩
      | some before =>
        let vocab := before.Clone
        if vocab.Hint ≠ updating.Hint ∨ vocab.Pos ≠ updating.Pos ∨
            vocab.Skill ≠ updating.Skill ∨ vocab.FirstLang ≠ updating.FirstLang ∨
            vocab.Infinitive ≠ updating.Infinitive ∨
            vocab.Alternatives ≠ updating.Alternatives ∨
            vocab.NumLearningWords ≠ updating.NumLearningWords then
          let vocab' :=
            { vocab with
              Hint := updating.Hint
              Pos := updating.Pos
              Skill := updating.Skill
              FirstLang := updating.FirstLang
              Infinitive := updating.Infinitive
              Alternatives := updating.Alternatives
              NumLearningWords := updating.NumLearningWords }
          match updateErr with
          | some e => ⟨some vocab', some e, true⟩
          | none =>
            ⟨some vocab',
              (CreateVocabAudit decode auditRepoErr "updated vocab" "sys"
                (some before) (some vocab')).err, true⟩
        else ⟨none, some ("update for vocab " ++ toString vocab.ID ++ " has no changes"),
          false⟩

structure UpdateFixitOutcome where
  fixit : Option Fixit
  err : Option String
  repoUpdateCalled : Bool
  deriving DecidableEq

/-- `FixitService.UpdateFixit` (src/internal/srv/fixit.go lines 94-127):
mutable fields are `Status`, `FieldName`, `Comments`. -/
def UpdateFixit (decode : String → Option (List (String × JValue))) (updating : Fixit)
    (findErr : Option String) (stored : Option Fixit)
    (updateErr : Option String) (auditRepoErr : Option String) : UpdateFixitOutcome :=
  match validateFixit updating with
  | some e => ⟨none, some e, false⟩
  | none =>
    match findErr with
    | some e => ⟨none, some e, false⟩
    | none =>
      match stored with
      | none => ⟨none, some ("expected to find existing fixit with id " ++
          toString updating.ID), false⟩
      | some before =>
        let fixit := before.Clone
        if fixit.Status ≠ updating.Status ∨ fixit.FieldName ≠ updating.FieldName ∨
            fixit.Comments ≠ updating.Comments then
          let fixit' :=
            { fixit with
              Status := updating.Status
              FieldName := updating.FieldName
              Comments := updating.Comments }
          match updateErr with
          | some e => ⟨some fixit', some e, true⟩
          | none =>
            ⟨some fixit',
              (CreateFixitAudit decode auditRepoErr "updated fixit" "sys"
                (some before) (some fixit')).err, true⟩
        else ⟨none, some ("update for fixit " ++ toString fixit.ID ++ " has no changes"),
          false⟩

/-! ## Time-range conversion (src/unnamed/part_002) -/

/-- `time.Hour` in nanoseconds. -/
def nanosPerHour : Int := 3600000000000

/-- The start/end resolution inside `GqlDateTimeToDuration`: an empty input
keeps the default, a non-empty one is parsed (`gqlDateTimeToTime`, i.e.
`time.Parse(time.RFC3339, ...)`, modelled by the abstract `parse`). -/
def resolveTime (parse : String → Option Int) (dflt : Int) (s : String) : Option Int :=
  if s = "" then some dflt else parse s

/-- `GqlDateTimeToDuration` (src/unnamed/part_002 lines 31-62): default the
start to one hour before now and the end to now (Go calls `time.Now()` twice,
hence `now₁`/`now₂`), parse any provided bound (failure is an error), and
reject a start strictly after the end. -/
def GqlDateTimeToDuration (parse : String → Option Int) (now₁ now₂ : Int)
    (startTime endTime : String) : Except String Duration :=
  match resolveTime parse (now₁ - nanosPerHour) startTime with
  | none => Except.error "invalid start time"
  | some start =>
    match resolveTime parse now₂ endTime with
    | none => Except.error "invalid end time"
    | some endV =>
      if start > endV then Except.error "start time must be before end time"
      else Except.ok ⟨start, endV⟩

/-! ## Generic facts about the sorting step -/

theorem sortDiffs_sorted (l : List DiffResult) :
    List.Sorted (fun d₁ d₂ : DiffResult => d₁.key ≤ d₂.key) (sortDiffs l) := by
  unfold sortDiffs
  have h := @List.sorted_mergeSort DiffResult
      (fun d₁ d₂ : DiffResult => decide (d₁.key ≤ d₂.key))
      (fun x y z h₁ h₂ => by
        simp only [decide_eq_true_eq] at h₁ h₂ ⊢
        exact le_trans h₁ h₂)
      (fun x y => by simpa using le_total x.key y.key) l
  exact h.imp fun hab => by simpa using hab

theorem mem_sortDiffs {d : DiffResult} {l : List DiffResult} : d ∈ sortDiffs l ↔ d ∈ l := by
  unfold sortDiffs
  exact List.mem_mergeSort

theorem countP_sortDiffs (p : DiffResult → Bool) (l : List DiffResult) :
    (sortDiffs l).countP p = l.countP p := by
  unfold sortDiffs
  exact (List.mergeSort_perm l _).countP_eq p

/-! ## Rendered-key facts for the diff engine -/

theorem sq_data : sq.data = ['\''] := rfl

theorem removedTail_data :
    ("\x27 removed" : String).data = ['\'', ' ', 'r', 'e', 'm', 'o', 'v', 'e', 'd'] := rfl

theorem addedTail_data :
    ("\x27 added" : String).data = ['\'', ' ', 'a', 'd', 'd', 'e', 'd'] := rfl

theorem empty_string_data : ("" : String).data = [] := rfl

theorem dot_data : ("." : String).data = ['.'] := rfl

/-- A path extended by `key ++ "."` is never the empty (top-level) path. -/
theorem append_dot_ne_empty (p k : String) : p ++ k ++ "." ≠ "" := by
  intro h
  rw [String.ext_iff] at h
  simp [String.data_append, dot_data, empty_string_data] at h

/-- A suffix no longer than the right part of an append is a suffix of that
right part. -/
theorem suffix_of_append_right {α : Type} {u x y : List α} (h : u <:+ x ++ y)
    (hl : u.length ≤ y.length) : u <:+ y := by
  obtain ⟨t, ht⟩ := h
  rcases List.append_eq_append_iff.mp ht with ⟨a', _, hu⟩ | ⟨c', _, hy⟩
  · have hlen : u.length = a'.length + y.length := by
      have h2 := congrArg List.length hu
      simpa using h2
    have ha : a' = [] := List.length_eq_zero.mp (by omega)
    subst ha
    simp only [List.nil_append] at hu
    exact hu ▸ List.suffix_rfl
  · exact ⟨c', hy.symm⟩

theorem quote_suffix_getLast {l : List Char} (h : sq.data <:+ l) :
    l.getLast? = some '\'' := by
  obtain ⟨t, ht⟩ := h
  rw [sq_data] at ht
  rw [← ht]
  exact List.getLast?_concat t

theorem removedKey_getLast (k : String) :
    (renderRemovedKey k).data.getLast? = some 'd' := by
  simp [renderRemovedKey, String.data_append, removedTail_data]

theorem addedKey_getLast (k : String) :
    (renderAddedKey k).data.getLast? = some 'd' := by
  simp [renderAddedKey, String.data_append, addedTail_data]

theorem not_quote_suffix_removedKey (k : String) :
    ¬ sq.data <:+ (renderRemovedKey k).data := by
  intro h
  have h1 := quote_suffix_getLast h
  rw [removedKey_getLast] at h1
  simp at h1

theorem not_quote_suffix_addedKey (k : String) :
    ¬ sq.data <:+ (renderAddedKey k).data := by
  intro h
  have h1 := quote_suffix_getLast h
  rw [addedKey_getLast] at h1
  simp at h1

theorem not_added_suffix_removedKey (k : String) :
    ¬ ("\x27 added" : String).data <:+ (renderRemovedKey k).data := by
  intro h
  have h2 : ("\x27 added" : String).data <:+ ("\x27 removed" : String).data := by
    have hk : (renderRemovedKey k).data = (sq ++ k).data ++ ("\x27 removed" : String).data := by
      simp [renderRemovedKey, String.data_append]
    rw [hk] at h
    exact suffix_of_append_right h (by rw [removedTail_data, addedTail_data]; simp)
  obtain ⟨t, ht⟩ := h2
  rw [addedTail_data, removedTail_data] at ht
  have hlen := congrArg List.length ht
  simp at hlen
  obtain ⟨a, b, rfl⟩ := List.length_eq_two.mp hlen
  simp at ht

theorem renderRemovedKey_inj {k₁ k₂ : String} (h : renderRemovedKey k₁ = renderRemovedKey k₂) :
    k₁ = k₂ := by
  rw [String.ext_iff] at h
  simp only [renderRemovedKey, String.data_append, List.append_assoc] at h
  exact String.ext (List.append_cancel_right (List.append_cancel_left h))

/-- Every value of the Bool-valued predicate recognising a top-level
removed-marker key. -/
def pRem (k : String) : DiffResult → Bool := fun d => d.key == renderRemovedKey k

theorem valKey_ne_remKey (fk k : String) : renderValKey fk ≠ renderRemovedKey k := by
  intro h
  apply not_quote_suffix_removedKey k
  rw [← h]
  have hdata : (renderValKey fk).data = (sq ++ fk).data ++ sq.data := by
    simp [renderValKey, String.data_append]
  rw [hdata]
  exact List.suffix_append _ _

theorem addedKey_ne_remKey (fk k : String) : renderAddedKey fk ≠ renderRemovedKey k := by
  intro h
  apply not_added_suffix_removedKey k
  rw [← h]
  have hdata : (renderAddedKey fk).data =
      (sq ++ fk).data ++ ("\x27 added" : String).data := by
    simp [renderAddedKey, String.data_append]
  rw [hdata]
  exact List.suffix_append _ _

/-- Shape invariant for diff entries: a value difference carries a key ending
in a quote, while removed/added markers carry no before/after values, and
below the top level every marker key ends in `\x27 added`. -/
def GoodKey (path : String) (d : DiffResult) : Prop :=
  sq.data <:+ d.key.data ∨
    (d.before = none ∧ d.after = none ∧
      (path = "" ∨ ("\x27 added" : String).data <:+ d.key.data))

theorem value_branch_shape (key path : String) (av bv : JValue) (d : DiffResult)
    (hd : d ∈ (if JValue.beq av bv then ([] : List DiffResult)
      else [⟨renderValKey (path ++ key), some av, some bv⟩])) : GoodKey path d := by
  by_cases hb : JValue.beq av bv
  · rw [if_pos hb] at hd
    simp at hd
  · rw [if_neg hb] at hd
    rw [List.mem_singleton] at hd
    subst hd
    simp only [GoodKey]
    left
    show sq.data <:+ (renderValKey (path ++ key)).data
    have hdata : (renderValKey (path ++ key)).data = (sq ++ (path ++ key)).data ++ sq.data := by
      simp [renderValKey, String.data_append]
    rw [hdata]
    exact List.suffix_append _ _

mutual

theorem findDiffs_shape (a b : List (String × JValue)) (path : String) :
    ∀ d ∈ findDiffs a b path, GoodKey path d := by
  intro d hd
  rw [findDiffs, mem_sortDiffs] at hd
  exact diffEntries_shape a b path d hd
termination_by (sizeOf a, 1)

theorem diffEntries_shape (l b : List (String × JValue)) (path : String) :
    ∀ d ∈ diffEntries l b path, GoodKey path d := by
  intro d hd
  match l with
  | [] => simp [diffEntries] at hd
  | (key, aValue) :: rest =>
    rw [diffEntries] at hd
    rcases List.mem_append.mp hd with h1 | h2
    · exact diffOne_shape key aValue b path d h1
    · exact diffEntries_shape rest b path d h2
termination_by (sizeOf l, 0)

theorem diffOne_shape (key : String) (v : JValue) (b : List (String × JValue)) (path : String) :
    ∀ d ∈ diffOne key v b path, GoodKey path d := by
  intro d hd
  rw [diffOne] at hd
  rcases hlook : lookupKey b key with _ | bValue
  · rw [hlook] at hd
    by_cases hp : path = ""
    · rw [if_pos hp] at hd
      rw [List.mem_singleton] at hd
      subst hd
      exact Or.inr ⟨rfl, rfl, Or.inl hp⟩
    · rw [if_neg hp] at hd
      rw [List.mem_singleton] at hd
      subst hd
      refine Or.inr ⟨rfl, rfl, Or.inr ?_⟩
      show ("\x27 added" : String).data <:+ (renderAddedKey (path ++ key)).data
      have hdata : (renderAddedKey (path ++ key)).data =
          (sq ++ (path ++ key)).data ++ ("\x27 added" : String).data := by
        simp [renderAddedKey, String.data_append]
      rw [hdata]
      exact List.suffix_append _ _
  · rw [hlook] at hd
    cases v with
    | jobj aM =>
      cases bValue with
      | jobj bM =>
        replace hd : d ∈ findDiffs aM bM (path ++ key ++ ".") := hd
        have hg := findDiffs_shape aM bM (path ++ key ++ ".") d hd
        simp only [GoodKey] at hg ⊢
        rcases hg with hq | ⟨h1, h2, h3⟩
        · exact Or.inl hq
        · rcases h3 with hpe | hadded
          · exact absurd hpe (append_dot_ne_empty path key)
          · exact Or.inr ⟨h1, h2, Or.inr hadded⟩
      | jnull => simp at hd
      | jbool x => simp at hd
      | jnum x => simp at hd
      | jstr x => simp at hd
      | jarr x => simp at hd
    | jnull => exact value_branch_shape key path JValue.jnull bValue d hd
    | jbool x => exact value_branch_shape key path (JValue.jbool x) bValue d hd
    | jnum x => exact value_branch_shape key path (JValue.jnum x) bValue d hd
    | jstr x => exact value_branch_shape key path (JValue.jstr x) bValue d hd
    | jarr x => exact value_branch_shape key path (JValue.jarr x) bValue d hd
termination_by (sizeOf v, 0)

end

theorem goodKey_ne_remKey {path : String} {d : DiffResult} (hg : GoodKey path d)
    (hpath : path ≠ "") (k : String) : d.key ≠ renderRemovedKey k := by
  intro hk
  simp only [GoodKey] at hg
  rcases hg with hq | ⟨-, -, h3⟩
  · rw [hk] at hq
    exact not_quote_suffix_removedKey k hq
  · rcases h3 with hpe | hadded
    · exact hpath hpe
    · rw [hk] at hadded
      exact not_added_suffix_removedKey k hadded

theorem empty_append_str (s : String) : "" ++ s = s := by
  rw [String.ext_iff]
  simp [String.data_append, empty_string_data]

theorem diffOne_countP_rem (k key : String) (v : JValue) (b : List (String × JValue)) :
    (diffOne key v b "").countP (pRem k) =
      (if key == k && (lookupKey b key).isNone then 1 else 0) := by
  rw [diffOne]
  rcases hlook : lookupKey b key with _ | bValue
  · rw [if_pos rfl]
    by_cases hk : key = k
    · subst hk
      simp [pRem, hlook, empty_append_str]
    · have hne : renderRemovedKey key ≠ renderRemovedKey k := by
        intro h
        exact hk (renderRemovedKey_inj h)
      simp [pRem, hk, hne, hlook, empty_append_str]
  · have hzero : ∀ l : List DiffResult, (∀ d ∈ l, GoodKey ("" ++ key ++ ".") d) →
        l.countP (pRem k) = 0 := by
      intro l hl
      rw [List.countP_eq_zero]
      intro d hd
      have := goodKey_ne_remKey (hl d hd) (append_dot_ne_empty "" key) k
      simp [pRem, this]
    cases v with
    | jobj aM =>
      cases bValue with
      | jobj bM =>
        have h0 := hzero (findDiffs aM bM ("" ++ key ++ "."))
          (findDiffs_shape aM bM ("" ++ key ++ "."))
        simpa [hlook] using h0
      | jnull => simp [hlook]
      | jbool x => simp [hlook]
      | jnum x => simp [hlook]
      | jstr x => simp [hlook]
      | jarr x => simp [hlook]
    | jnull =>
      by_cases hb : JValue.beq JValue.jnull bValue <;>
        simp [hb, pRem, valKey_ne_remKey, hlook]
    | jbool x =>
      by_cases hb : JValue.beq (JValue.jbool x) bValue <;>
        simp [hb, pRem, valKey_ne_remKey, hlook]
    | jnum x =>
      by_cases hb : JValue.beq (JValue.jnum x) bValue <;>
        simp [hb, pRem, valKey_ne_remKey, hlook]
    | jstr x =>
      by_cases hb : JValue.beq (JValue.jstr x) bValue <;>
        simp [hb, pRem, valKey_ne_remKey, hlook]
    | jarr x =>
      by_cases hb : JValue.beq (JValue.jarr x) bValue <;>
        simp [hb, pRem, valKey_ne_remKey, hlook]

theorem diffEntries_countP_rem (k : String) (b : List (String × JValue)) :
    ∀ a : List (String × JValue),
      (diffEntries a b "").countP (pRem k) =
        a.countP (fun kv => kv.1 == k && (lookupKey b kv.1).isNone) := by
  intro a
  induction a with
  | nil => simp [diffEntries]
  | cons kv rest ih =>
    obtain ⟨key, v⟩ := kv
    rw [diffEntries, List.countP_append, diffOne_countP_rem, List.countP_cons, ih]
    rcases hl : lookupKey b key with _ | bv <;> by_cases h1 : key = k <;>
      simp [hl, h1, Nat.add_comm]

theorem count_key_entries (b : List (String × JValue)) (k : String) :
    ∀ a : List (String × JValue), (a.map Prod.fst).Nodup → k ∈ a.map Prod.fst →
      lookupKey b k = none →
      a.countP (fun kv => kv.1 == k && (lookupKey b kv.1).isNone) = 1 := by
  intro a
  induction a with
  | nil => simp
  | cons kv rest ih =>
    obtain ⟨key, v⟩ := kv
    intro hnodup hk hb
    simp only [List.map_cons, List.nodup_cons] at hnodup
    obtain ⟨hnotin, hnodup2⟩ := hnodup
    rw [List.countP_cons]
    by_cases h1 : key = k
    · subst h1
      have hzero : rest.countP (fun kv => kv.1 == key && (lookupKey b kv.1).isNone) = 0 := by
        rw [List.countP_eq_zero]
        intro kv2 hkv2
        simp only [Bool.and_eq_true, beq_iff_eq, not_and]
        intro hfst
        exact absurd (hfst ▸ List.mem_map_of_mem Prod.fst hkv2) hnotin
      simp [hzero, hb]
    · have hk2 : k ∈ rest.map Prod.fst := by
        rcases List.mem_cons.mp hk with h | h
        · exact absurd h.symm h1
        · exact h
      simp [h1, ih hnodup2 hk2 hb]

theorem findDiffs_rem_count (a b : List (String × JValue)) (k : String)
    (hnodup : (a.map Prod.fst).Nodup) (hk : k ∈ a.map Prod.fst)
    (hb : lookupKey b k = none) :
    (findDiffs a b "").countP (pRem k) = 1 := by
  rw [findDiffs, countP_sortDiffs, diffEntries_countP_rem]
  exact count_key_entries b k a hnodup hk hb

theorem findDiffs_marker_no_values (a b : List (String × JValue)) (path : String)
    (d : DiffResult) (hd : d ∈ findDiffs a b path)
    (hkey : ¬ sq.data <:+ d.key.data) : d.before = none ∧ d.after = none := by
  have hg := findDiffs_shape a b path d hd
  simp only [GoodKey] at hg
  rcases hg with hq | ⟨h1, h2, -⟩
  · exact absurd hq hkey
  · exact ⟨h1, h2⟩

theorem added_mem_of_missing (bm : List (String × JValue)) (path k : String)
    (hp : path ≠ "") (hbm : lookupKey bm k = none) :
    ∀ am : List (String × JValue), k ∈ am.map Prod.fst →
      (⟨renderAddedKey (path ++ k), none, none⟩ : DiffResult) ∈ findDiffs am bm path := by
  intro am
  induction am with
  | nil => simp
  | cons kv rest ih =>
    obtain ⟨key, v⟩ := kv
    intro hk
    rw [findDiffs, mem_sortDiffs, diffEntries, List.mem_append]
    by_cases h1 : key = k
    · left
      subst h1
      rw [diffOne, hbm, if_neg hp]
      exact List.mem_singleton_self _
    · right
      have hk2 : k ∈ rest.map Prod.fst := by
        rcases List.mem_cons.mp hk with h | h
        · exact absurd h.symm h1
        · exact h
      have hmem := ih hk2
      rw [findDiffs, mem_sortDiffs] at hmem
      exact hmem

theorem nested_added_mem (b : List (String × JValue)) (p : String)
    (am bm : List (String × JValue)) (k : String)
    (hbp : lookupKey b p = some (JValue.jobj bm))
    (hk : k ∈ am.map Prod.fst) (hbm : lookupKey bm k = none) :
    ∀ a : List (String × JValue), lookupKey a p = some (JValue.jobj am) →
      (⟨renderAddedKey (p ++ "." ++ k), none, none⟩ : DiffResult) ∈ findDiffs a b "" := by
  intro a
  induction a with
  | nil =>
    intro h
    simp [lookupKey] at h
  | cons kv rest ih =>
    obtain ⟨key, v⟩ := kv
    intro hlook
    rw [lookupKey] at hlook
    rw [findDiffs, mem_sortDiffs, diffEntries, List.mem_append]
    by_cases h1 : key = p
    · left
      rw [if_pos h1] at hlook
      obtain rfl : v = JValue.jobj am := Option.some.inj hlook
      subst h1
      rw [diffOne, hbp]
      exact added_mem_of_missing bm ("" ++ key ++ ".") k
        (append_dot_ne_empty "" key) hbm am hk
    · right
      rw [if_neg h1] at hlook
      have hmem := ih hlook
      rw [findDiffs, mem_sortDiffs] at hmem
      exact hmem

/-! ## Added-key counting and iteration-order facts -/

theorem str_append_assoc (x y z : String) : (x ++ y) ++ z = x ++ (y ++ z) := by
  apply String.ext
  simp [String.data_append]

theorem str_append_left_cancel {x y z : String} (h : x ++ y = x ++ z) : y = z := by
  rw [String.ext_iff] at h
  simp only [String.data_append] at h
  exact String.ext (List.append_cancel_left h)

theorem path_absorb (path key s : String) :
    (path ++ key ++ ".") ++ s = path ++ (key ++ "." ++ s) := by
  simp [str_append_assoc]

/-- A field name containing no `.` character; dotted keys make two distinct
structural locations render the same full key path. -/
def dotFree (s : String) : Prop := '.' ∉ s.data

instance (s : String) : Decidable (dotFree s) := by
  unfold dotFree
  infer_instance

theorem list_dot_split : ∀ (q p s t : List Char), '.' ∉ q → '.' ∉ p →
    q ++ '.' :: s = p ++ '.' :: t → q = p ∧ s = t := by
  intro q
  induction q with
  | nil =>
    intro p s t _ hp h
    cases p with
    | nil =>
      simp at h
      exact ⟨rfl, h⟩
    | cons c p2 =>
      simp at h
      obtain ⟨h1, -⟩ := h
      exact absurd (show '.' ∈ c :: p2 by rw [h1]; exact List.mem_cons_self c p2) hp
  | cons c q2 ih =>
    intro p s t hq hp h
    cases p with
    | nil =>
      simp at h
      obtain ⟨h1, -⟩ := h
      exact absurd (show '.' ∈ c :: q2 by rw [← h1]; exact List.mem_cons_self c q2) hq
    | cons c2 p2 =>
      simp only [List.cons_append, List.cons.injEq] at h
      obtain ⟨rfl, h2⟩ := h
      have hq2 : '.' ∉ q2 := fun hm => hq (List.mem_cons_of_mem _ hm)
      have hp2 : '.' ∉ p2 := fun hm => hp (List.mem_cons_of_mem _ hm)
      obtain ⟨rfl, rfl⟩ := ih p2 s t hq2 hp2 h2
      exact ⟨rfl, rfl⟩

theorem dotfree_ne_dotted {k : String} (hk : dotFree k) (k2 s : String) :
    k2 ++ "." ++ s ≠ k := by
  intro h
  apply hk
  rw [← h]
  simp [String.data_append, dot_data]

/-- The Bool-valued predicate recognising a nested added-marker key. -/
def pAdd (f : String) : DiffResult → Bool := fun d => d.key == renderAddedKey f

theorem renderAddedKey_inj {f₁ f₂ : String} (h : renderAddedKey f₁ = renderAddedKey f₂) :
    f₁ = f₂ := by
  rw [String.ext_iff] at h
  simp only [renderAddedKey, String.data_append, List.append_assoc] at h
  exact String.ext (List.append_cancel_right (List.append_cancel_left h))

theorem valKey_ne_addedKey (fk f : String) : renderValKey fk ≠ renderAddedKey f := by
  intro h
  apply not_quote_suffix_addedKey f
  rw [← h]
  have hdata : (renderValKey fk).data = (sq ++ fk).data ++ sq.data := by
    simp [renderValKey, String.data_append]
  rw [hdata]
  exact List.suffix_append _ _

theorem remKey_ne_addedKey (s f : String) : renderRemovedKey s ≠ renderAddedKey f :=
  fun h => addedKey_ne_remKey f s h.symm

/-- Exact key-form invariant for diff entries: a value difference carries the
key `'path++s'` for some sub-path `s`; markers carry no before/after values
and their key is `'path++s' removed` (only at the top level) or
`'path++s' added`. -/
def KeyShape (path : String) (d : DiffResult) : Prop :=
  (∃ s, d.key = renderValKey (path ++ s)) ∨
    (d.before = none ∧ d.after = none ∧
      ((path = "" ∧ ∃ s, d.key = renderRemovedKey (path ++ s)) ∨
        ∃ s, d.key = renderAddedKey (path ++ s)))

theorem value_branch_keyshape (key path : String) (av bv : JValue) (d : DiffResult)
    (hd : d ∈ (if JValue.beq av bv then ([] : List DiffResult)
      else [⟨renderValKey (path ++ key), some av, some bv⟩])) : KeyShape path d := by
  by_cases hb : JValue.beq av bv
  · rw [if_pos hb] at hd
    simp at hd
  · rw [if_neg hb] at hd
    rw [List.mem_singleton] at hd
    subst hd
    unfold KeyShape
    exact Or.inl ⟨key, rfl⟩

mutual

theorem findDiffs_keyshape (a b : List (String × JValue)) (path : String) :
    ∀ d ∈ findDiffs a b path, KeyShape path d := by
  intro d hd
  rw [findDiffs, mem_sortDiffs] at hd
  exact diffEntries_keyshape a b path d hd
termination_by (sizeOf a, 1)

theorem diffEntries_keyshape (l b : List (String × JValue)) (path : String) :
    ∀ d ∈ diffEntries l b path, KeyShape path d := by
  intro d hd
  match l with
  | [] => simp [diffEntries] at hd
  | (key, aValue) :: rest =>
    rw [diffEntries] at hd
    rcases List.mem_append.mp hd with h1 | h2
    · exact diffOne_keyshape key aValue b path d h1
    · exact diffEntries_keyshape rest b path d h2
termination_by (sizeOf l, 0)

theorem diffOne_keyshape (key : String) (v : JValue) (b : List (String × JValue))
    (path : String) : ∀ d ∈ diffOne key v b path, KeyShape path d := by
  intro d hd
  rw [diffOne] at hd
  rcases hlook : lookupKey b key with _ | bValue
  · rw [hlook] at hd
    by_cases hp : path = ""
    · rw [if_pos hp] at hd
      rw [List.mem_singleton] at hd
      subst hd
      unfold KeyShape
      exact Or.inr ⟨rfl, rfl, Or.inl ⟨hp, ⟨key, rfl⟩⟩⟩
    · rw [if_neg hp] at hd
      rw [List.mem_singleton] at hd
      subst hd
      unfold KeyShape
      exact Or.inr ⟨rfl, rfl, Or.inr ⟨key, rfl⟩⟩
  · rw [hlook] at hd
    cases v with
    | jobj aM =>
      cases bValue with
      | jobj bM =>
        replace hd : d ∈ findDiffs aM bM (path ++ key ++ ".") := hd
        have hg := findDiffs_keyshape aM bM (path ++ key ++ ".") d hd
        unfold KeyShape at hg ⊢
        rcases hg with ⟨s, hs⟩ | ⟨h1, h2, h3⟩
        · exact Or.inl ⟨key ++ "." ++ s, by rw [hs, path_absorb]⟩
        · rcases h3 with ⟨hpe, -⟩ | ⟨s, hs⟩
          · exact absurd hpe (append_dot_ne_empty path key)
          · exact Or.inr ⟨h1, h2, Or.inr ⟨key ++ "." ++ s, by rw [hs, path_absorb]⟩⟩
      | jnull => simp at hd
      | jbool x => simp at hd
      | jnum x => simp at hd
      | jstr x => simp at hd
      | jarr x => simp at hd
    | jnull => exact value_branch_keyshape key path JValue.jnull bValue d hd
    | jbool x => exact value_branch_keyshape key path (JValue.jbool x) bValue d hd
    | jnum x => exact value_branch_keyshape key path (JValue.jnum x) bValue d hd
    | jstr x => exact value_branch_keyshape key path (JValue.jstr x) bValue d hd
    | jarr x => exact value_branch_keyshape key path (JValue.jarr x) bValue d hd
termination_by (sizeOf v, 0)

end

/-- Inside a recursive call at `path2 ++ key ++ "."`, no entry carries the
added key of the dot-free sibling name `k` at `path2`. -/
theorem keyshape_pAdd_false {path2 key : String} {d : DiffResult}
    (hs : KeyShape (path2 ++ key ++ ".") d) {k : String} (hk : dotFree k) :
    pAdd (path2 ++ k) d = false := by
  simp only [pAdd, beq_eq_false_iff_ne]
  intro hd
  rcases hs with ⟨s, hv⟩ | ⟨-, -, hrest⟩
  · rw [hd] at hv
    exact valKey_ne_addedKey _ _ hv.symm
  · rcases hrest with ⟨hpe, -⟩ | ⟨s, ha⟩
    · exact append_dot_ne_empty path2 key hpe
    · rw [hd] at ha
      have h2 := renderAddedKey_inj ha
      rw [path_absorb] at h2
      have h3 := str_append_left_cancel h2
      exact dotfree_ne_dotted hk key s h3.symm

/-- Inside the recursive call for a top-level key `key ≠ p` (both dot-free),
no entry carries the added key `p ++ "." ++ k`. -/
theorem keyshape_pAdd_top_false {key : String} {d : DiffResult}
    (hs : KeyShape ("" ++ key ++ ".") d) {p k : String}
    (hdfkey : dotFree key) (hdfp : dotFree p) (hne : key ≠ p) :
    pAdd (p ++ "." ++ k) d = false := by
  simp only [pAdd, beq_eq_false_iff_ne]
  intro hd
  rcases hs with ⟨s, hv⟩ | ⟨-, -, hrest⟩
  · rw [hd] at hv
    exact valKey_ne_addedKey _ _ hv.symm
  · rcases hrest with ⟨hpe, -⟩ | ⟨s, ha⟩
    · exact append_dot_ne_empty "" key hpe
    · rw [hd] at ha
      have h2 := renderAddedKey_inj ha
      rw [empty_append_str] at h2
      rw [String.ext_iff] at h2
      simp [String.data_append, dot_data] at h2
      obtain ⟨hqp, -⟩ := list_dot_split p.data key.data k.data s.data hdfp hdfkey h2
      exact hne (String.ext hqp).symm

theorem diffOne_countP_add (path2 : String) (hp : path2 ≠ "") (k : String) (hk : dotFree k)
    (key : String) (v : JValue) (bm : List (String × JValue)) :
    (diffOne key v bm path2).countP (pAdd (path2 ++ k)) =
      (if key == k && (lookupKey bm key).isNone then 1 else 0) := by
  rw [diffOne]
  rcases hlook : lookupKey bm key with _ | bValue
  · rw [if_neg hp]
    by_cases hkey : key = k
    · subst hkey
      simp [pAdd, hlook]
    · have hne : renderAddedKey (path2 ++ key) ≠ renderAddedKey (path2 ++ k) := by
        intro h
        exact hkey (str_append_left_cancel (renderAddedKey_inj h))
      simp [pAdd, hkey, hne, hlook]
  · have hzero : ∀ l : List DiffResult, (∀ d ∈ l, KeyShape (path2 ++ key ++ ".") d) →
        l.countP (pAdd (path2 ++ k)) = 0 := by
      intro l hl
      rw [List.countP_eq_zero]
      intro d hd
      simp [keyshape_pAdd_false (hl d hd) hk]
    cases v with
    | jobj aM =>
      cases bValue with
      | jobj bM =>
        have h0 := hzero (findDiffs aM bM (path2 ++ key ++ "."))
          (findDiffs_keyshape aM bM (path2 ++ key ++ "."))
        simpa [hlook] using h0
      | jnull => simp [hlook]
      | jbool x => simp [hlook]
      | jnum x => simp [hlook]
      | jstr x => simp [hlook]
      | jarr x => simp [hlook]
    | jnull =>
      by_cases hb : JValue.beq JValue.jnull bValue <;>
        simp [hb, pAdd, valKey_ne_addedKey, hlook]
    | jbool x =>
      by_cases hb : JValue.beq (JValue.jbool x) bValue <;>
        simp [hb, pAdd, valKey_ne_addedKey, hlook]
    | jnum x =>
      by_cases hb : JValue.beq (JValue.jnum x) bValue <;>
        simp [hb, pAdd, valKey_ne_addedKey, hlook]
    | jstr x =>
      by_cases hb : JValue.beq (JValue.jstr x) bValue <;>
        simp [hb, pAdd, valKey_ne_addedKey, hlook]
    | jarr x =>
      by_cases hb : JValue.beq (JValue.jarr x) bValue <;>
        simp [hb, pAdd, valKey_ne_addedKey, hlook]

theorem diffEntries_countP_add (path2 : String) (hp : path2 ≠ "") (k : String)
    (hk : dotFree k) (bm : List (String × JValue)) :
    ∀ am : List (String × JValue),
      (diffEntries am bm path2).countP (pAdd (path2 ++ k)) =
        am.countP (fun kv => kv.1 == k && (lookupKey bm kv.1).isNone) := by
  intro am
  induction am with
  | nil => simp [diffEntries]
  | cons kv rest ih =>
    obtain ⟨key, v⟩ := kv
    rw [diffEntries, List.countP_append, diffOne_countP_add path2 hp k hk,
      List.countP_cons, ih]
    rcases hl : lookupKey bm key with _ | bv <;> by_cases h1 : key = k <;>
      simp [hl, h1, Nat.add_comm]

theorem findDiffs_add_count_inner (am bm : List (String × JValue)) (path2 k : String)
    (hp : path2 ≠ "") (hk : dotFree k) (hnodup : (am.map Prod.fst).Nodup)
    (hmem : k ∈ am.map Prod.fst) (hbm : lookupKey bm k = none) :
    (findDiffs am bm path2).countP (pAdd (path2 ++ k)) = 1 := by
  rw [findDiffs, countP_sortDiffs, diffEntries_countP_add path2 hp k hk]
  exact count_key_entries bm k am hnodup hmem hbm

theorem diffOne_countP_add_top (p k : String) (hdfp : dotFree p)
    (b : List (String × JValue)) (key : String) (hdfkey : dotFree key) (hne : key ≠ p)
    (v : JValue) :
    (diffOne key v b "").countP (pAdd (p ++ "." ++ k)) = 0 := by
  rw [diffOne]
  rcases hlook : lookupKey b key with _ | bValue
  · rw [if_pos rfl]
    simp [pAdd, remKey_ne_addedKey]
  · have hzero : ∀ l : List DiffResult, (∀ d ∈ l, KeyShape ("" ++ key ++ ".") d) →
        l.countP (pAdd (p ++ "." ++ k)) = 0 := by
      intro l hl
      rw [List.countP_eq_zero]
      intro d hd
      simp [keyshape_pAdd_top_false (hl d hd) hdfkey hdfp hne]
    cases v with
    | jobj aM =>
      cases bValue with
      | jobj bM =>
        have h0 := hzero (findDiffs aM bM ("" ++ key ++ "."))
          (findDiffs_keyshape aM bM ("" ++ key ++ "."))
        simpa [hlook] using h0
      | jnull => simp [hlook]
      | jbool x => simp [hlook]
      | jnum x => simp [hlook]
      | jstr x => simp [hlook]
      | jarr x => simp [hlook]
    | jnull =>
      by_cases hb : JValue.beq JValue.jnull bValue <;>
        simp [hb, pAdd, valKey_ne_addedKey, hlook]
    | jbool x =>
      by_cases hb : JValue.beq (JValue.jbool x) bValue <;>
        simp [hb, pAdd, valKey_ne_addedKey, hlook]
    | jnum x =>
      by_cases hb : JValue.beq (JValue.jnum x) bValue <;>
        simp [hb, pAdd, valKey_ne_addedKey, hlook]
    | jstr x =>
      by_cases hb : JValue.beq (JValue.jstr x) bValue <;>
        simp [hb, pAdd, valKey_ne_addedKey, hlook]
    | jarr x =>
      by_cases hb : JValue.beq (JValue.jarr x) bValue <;>
        simp [hb, pAdd, valKey_ne_addedKey, hlook]

theorem diffEntries_countP_add_top_zero (p k : String) (hdfp : dotFree p)
    (b : List (String × JValue)) :
    ∀ l : List (String × JValue), (∀ q ∈ l.map Prod.fst, dotFree q) →
      p ∉ l.map Prod.fst →
      (diffEntries l b "").countP (pAdd (p ++ "." ++ k)) = 0 := by
  intro l
  induction l with
  | nil =>
    intro _ _
    simp [diffEntries]
  | cons kv rest ih =>
    obtain ⟨key, v⟩ := kv
    intro hdf hnp
    have hkeyne : key ≠ p := by
      intro h
      exact hnp (h ▸ (by simp : key ∈ ((key, v) :: rest).map Prod.fst))
    rw [diffEntries, List.countP_append]
    rw [diffOne_countP_add_top p k hdfp b key (hdf key (by simp)) hkeyne v]
    rw [ih (fun q hq => hdf q (by simp only [List.map_cons, List.mem_cons]; exact Or.inr hq))
      (fun hmem => hnp (by simp only [List.map_cons, List.mem_cons]; exact Or.inr hmem))]

theorem findDiffs_add_count_top (b : List (String × JValue)) (p k : String)
    (am bm : List (String × JValue)) (hdfp : dotFree p) (hk : dotFree k)
    (hbp : lookupKey b p = some (JValue.jobj bm))
    (hnodup_am : (am.map Prod.fst).Nodup) (hmem : k ∈ am.map Prod.fst)
    (hbm : lookupKey bm k = none) :
    ∀ a : List (String × JValue), (a.map Prod.fst).Nodup →
      (∀ q ∈ a.map Prod.fst, dotFree q) →
      lookupKey a p = some (JValue.jobj am) →
      (findDiffs a b "").countP (pAdd (p ++ "." ++ k)) = 1 := by
  intro a
  induction a with
  | nil =>
    intro _ _ h
    simp [lookupKey] at h
  | cons kv rest ih =>
    obtain ⟨key, v⟩ := kv
    intro hnodup hdf hlook
    simp only [List.map_cons, List.nodup_cons] at hnodup
    obtain ⟨hnotin, hnodup2⟩ := hnodup
    rw [lookupKey] at hlook
    rw [findDiffs, countP_sortDiffs, diffEntries, List.countP_append]
    by_cases h1 : key = p
    · rw [if_pos h1] at hlook
      obtain rfl : v = JValue.jobj am := Option.some.inj hlook
      subst h1
      have hhead : (diffOne key (JValue.jobj am) b "").countP (pAdd (key ++ "." ++ k)) = 1 := by
        rw [diffOne, hbp]
        have h2 := findDiffs_add_count_inner am bm ("" ++ key ++ ".") k
          (append_dot_ne_empty "" key) hk hnodup_am hmem hbm
        have h3 : (("" : String) ++ key ++ ".") ++ k = key ++ "." ++ k := by
          rw [empty_append_str]
        rw [h3] at h2
        exact h2
      have htail := diffEntries_countP_add_top_zero key k hdfp b rest
        (fun q hq => hdf q (by simp only [List.map_cons, List.mem_cons]; exact Or.inr hq))
        hnotin
      rw [hhead, htail]
    · rw [if_neg h1] at hlook
      have hhead := diffOne_countP_add_top p k hdfp b key (hdf key (by simp)) h1 v
      have htail := ih hnodup2
        (fun q hq => hdf q (by simp only [List.map_cons, List.mem_cons]; exact Or.inr hq))
        hlook
      rw [findDiffs, countP_sortDiffs] at htail
      rw [hhead, htail]

theorem lookupKey_mem {a : List (String × JValue)} {p : String} {v : JValue}
    (h : lookupKey a p = some v) : p ∈ a.map Prod.fst := by
  induction a with
  | nil => simp [lookupKey] at h
  | cons kv rest ih =>
    obtain ⟨key, w⟩ := kv
    rw [lookupKey] at h
    by_cases h1 : key = p
    · simp [h1]
    · rw [if_neg h1] at h
      simp [ih h]

theorem diffEntries_perm (b : List (String × JValue)) (path : String)
    {a₁ a₂ : List (String × JValue)} (h : a₁.Perm a₂) :
    (diffEntries a₁ b path).Perm (diffEntries a₂ b path) := by
  induction h with
  | nil => exact List.Perm.refl _
  | cons x h2 ih =>
    obtain ⟨k, v⟩ := x
    simp only [diffEntries]
    exact List.Perm.append_left _ ih
  | swap x y l =>
    obtain ⟨k₁, v₁⟩ := x
    obtain ⟨k₂, v₂⟩ := y
    simp only [diffEntries]
    exact List.perm_append_comm_assoc _ _ _
  | trans h₁ h₂ ih₁ ih₂ => exact ih₁.trans ih₂

/-- The diff output depends on the iteration order of the before object only
up to permutation: permuting the entries permutes the output. -/
theorem findDiffs_perm (b : List (String × JValue)) (path : String)
    {a₁ a₂ : List (String × JValue)} (h : a₁.Perm a₂) :
    (findDiffs a₁ b path).Perm (findDiffs a₂ b path) := by
  rw [findDiffs, findDiffs]
  unfold sortDiffs
  exact ((List.mergeSort_perm _ _).trans (diffEntries_perm b path h)).trans
    (List.mergeSort_perm _ _).symm

/-! ## Claim theorems -/

/-- C1 counterexample: the byte-identical-output clause fails. The two
association lists below are permutations of each other — two iteration
orders of the SAME decoded JSON object `{"p":{"k":1},"p.k":3}` (Go iterates
maps in randomized order) — compared against `{"p":{"k":2},"p.k":4}`. Both
runs produce two entries whose rendered keys are equal (`'p.k'`), one from
the nested leaf `p`→`k` and one from the literal top-level key `p.k`; the
sort (src/internal/srv/audit.go lines 346-348) compares keys only, so the
relative order of the two payload-distinct entries follows the iteration
order and the outputs differ. -/
theorem claim1_byte_identical_counterexample :
    ([("p", JValue.jobj [("k", JValue.jnum 1)]), ("p.k", JValue.jnum 3)] :
        List (String × JValue)).Perm
      [("p.k", JValue.jnum 3), ("p", JValue.jobj [("k", JValue.jnum 1)])] ∧
    compareDiffs (some [("p", JValue.jobj [("k", JValue.jnum 1)]), ("p.k", JValue.jnum 3)])
        (some [("p", JValue.jobj [("k", JValue.jnum 2)]), ("p.k", JValue.jnum 4)]) ≠
      compareDiffs (some [("p.k", JValue.jnum 3), ("p", JValue.jobj [("k", JValue.jnum 1)])])
        (some [("p", JValue.jobj [("k", JValue.jnum 2)]), ("p.k", JValue.jnum 4)]) := by
  constructor
  · exact List.Perm.swap _ _ _
  · simp +decide [compareDiffs, findDiffs, diffEntries, diffOne, sortDiffs, lookupKey,
      renderValKey, sq, List.mergeSort, List.merge, JValue.beq]

/-- C1 (amended): the diff list computed by the compare operation is sorted
ascending lexicographically by the rendered key string, and it depends on
the iteration order of the before object only up to permutation — so the
output is determined up to the relative order of entries with equal rendered
keys, and byte-identical output for identical inputs holds exactly when no
two distinct structural locations render the same key string (the
counterexample above shows it fails otherwise). -/
theorem claim1_sorted_and_stable_up_to_equal_keys :
    (∀ obj1 obj2, List.Sorted (fun d₁ d₂ : DiffResult => d₁.key ≤ d₂.key)
      (compareDiffs obj1 obj2)) ∧
    (∀ a b path, List.Sorted (fun d₁ d₂ : DiffResult => d₁.key ≤ d₂.key)
      (findDiffs a b path)) ∧
    (∀ (a₁ a₂ b : List (String × JValue)) (path : String), a₁.Perm a₂ →
      (findDiffs a₁ b path).Perm (findDiffs a₂ b path)) := by
  have hf : ∀ a b path, List.Sorted (fun d₁ d₂ : DiffResult => d₁.key ≤ d₂.key)
      (findDiffs a b path) := by
    intro a b path
    rw [findDiffs]
    exact sortDiffs_sorted _
  exact ⟨fun obj1 obj2 => hf _ _ _, hf, fun a₁ a₂ b path h => findDiffs_perm b path h⟩

/-- C1 witness: a concrete permutation of the before object permutes the
diff output. -/
theorem claim1_sorted_and_stable_up_to_equal_keys_witness :
    (findDiffs [("a", JValue.jnum 1), ("b", JValue.jnum 2)] [] "").Perm
      (findDiffs [("b", JValue.jnum 2), ("a", JValue.jnum 1)] [] "") := by
  exact claim1_sorted_and_stable_up_to_equal_keys.2.2 _ _ [] "" (List.Perm.swap _ _ _)

/-- C2 counterexample: with before = `{"p":{"k":"v"}}` and after = `{"p":{}}`,
the key `k` is present in the nested map `p` of the before object, held by
both sides, and absent from the after side — yet the single diff entry is
labelled `'p.k' added`, not `'p.k' removed` (src/internal/srv/audit.go lines
320-325 label a missing key `removed` only at the top level and `added` at
every nested level). -/
theorem claim2_nested_removed_counterexample :
    compareDiffs (some [("p", JValue.jobj [("k", JValue.jstr "v")])])
      (some [("p", JValue.jobj [])]) =
      [⟨"\x27p.k\x27 added", none, none⟩] ∧
    ("\x27p.k\x27 added" : String) ≠ "\x27p.k\x27 removed" := by
  constructor
  · simp +decide [compareDiffs, findDiffs, diffEntries, diffOne, sortDiffs, lookupKey,
      renderAddedKey, sq, List.mergeSort]
  · decide

/-- C2 (amended): a key present in `before` but absent from `after` yields
exactly one diff entry, with no before/after values attached. At the top
level its key is the descriptive string `'key' removed`. Inside a nested map
held by both sides the single entry is instead labelled `'path.key' added`,
and no entry labelled `'path.key' removed` appears. The nested exact-count
is stated for dot-free field names (keys without a `.` character), since a
dotted key can make two distinct structural locations render the same key
string. -/
theorem claim2_missing_key_reporting :
    (∀ a b k, (a.map Prod.fst).Nodup → k ∈ a.map Prod.fst → lookupKey b k = none →
      (findDiffs a b "").countP (pRem k) = 1 ∧
      ∀ d ∈ findDiffs a b "", d.key = renderRemovedKey k →
        d.before = none ∧ d.after = none) ∧
    (∀ a b p am bm k, (a.map Prod.fst).Nodup → (∀ q ∈ a.map Prod.fst, dotFree q) →
      dotFree k →
      lookupKey a p = some (JValue.jobj am) → lookupKey b p = some (JValue.jobj bm) →
      (am.map Prod.fst).Nodup → k ∈ am.map Prod.fst → lookupKey bm k = none →
      (findDiffs a b "").countP (pAdd (p ++ "." ++ k)) = 1 ∧
      (∀ d ∈ findDiffs a b "", d.key ≠ renderRemovedKey (p ++ "." ++ k)) ∧
      (∀ d ∈ findDiffs a b "", d.key = renderAddedKey (p ++ "." ++ k) →
        d.before = none ∧ d.after = none)) := by
  constructor
  · intro a b k hnodup hk hb
    refine ⟨findDiffs_rem_count a b k hnodup hk hb, ?_⟩
    intro d hd hdkey
    refine findDiffs_marker_no_values a b "" d hd ?_
    rw [hdkey]
    exact not_quote_suffix_removedKey k
  · intro a b p am bm k hnodup hdf hk hap hbp hnodup2 hmem hbm
    have hdfp : dotFree p := hdf p (lookupKey_mem hap)
    refine ⟨findDiffs_add_count_top b p k am bm hdfp hk hbp hnodup2 hmem hbm a
      hnodup hdf hap, ?_, ?_⟩
    · intro d hd hdkey
      have hcount : (findDiffs a b "").countP (pRem (p ++ "." ++ k)) = 0 := by
        rw [findDiffs, countP_sortDiffs, diffEntries_countP_rem]
        rw [List.countP_eq_zero]
        intro kv hkv
        simp only [Bool.and_eq_true, beq_iff_eq, not_and]
        intro hfst _
        exact dotfree_ne_dotted (hdf kv.1 (List.mem_map_of_mem Prod.fst hkv)) p k
          hfst.symm
      have h0 := List.countP_eq_zero.mp hcount d hd
      simp [pRem, hdkey] at h0
    · intro d hd hdkey
      refine findDiffs_marker_no_values a b "" d hd ?_
      rw [hdkey]
      exact not_quote_suffix_addedKey _

/-- C2 witness: a concrete top-level drop produces exactly one `removed`
entry, and a concrete nested drop produces exactly one entry, labelled
`added`. -/
theorem claim2_missing_key_reporting_witness :
    (findDiffs [("x", JValue.jnum 1)] [] "").countP (pRem "x") = 1 ∧
    (findDiffs [("p", JValue.jobj [("k", JValue.jstr "v")])]
        [("p", JValue.jobj [])] "").countP (pAdd ("p" ++ "." ++ "k")) = 1 := by
  constructor
  · exact (claim2_missing_key_reporting.1 [("x", JValue.jnum 1)] [] "x"
      (by simp) (by simp) rfl).1
  · exact (claim2_missing_key_reporting.2 [("p", JValue.jobj [("k", JValue.jstr "v")])]
      [("p", JValue.jobj [])] "p" [("k", JValue.jstr "v")] [] "k"
      (by simp) (by intro q hq; simp at hq; subst hq; decide) (by decide)
      rfl rfl (by simp) (by simp) rfl).1

/-- C3 counterexample: when only the second (after) input fails to decode,
`CompareJSON`'s diff list is not empty — every top-level key of the first
input is reported as removed, here producing one entry for key `a`. -/
theorem claim3_after_decode_failure_counterexample :
    compareDiffs (some [("a", JValue.jstr "x")]) none =
      [⟨"\x27a\x27 removed", none, none⟩] ∧
    compareDiffs (some [("a", JValue.jstr "x")]) none ≠ [] := by
  constructor
  · simp [compareDiffs, findDiffs, diffEntries, diffOne, sortDiffs, lookupKey,
      renderRemovedKey, sq]
  · simp [compareDiffs, findDiffs, diffEntries, diffOne, sortDiffs, lookupKey]

/-- C3 (amended): `CompareJSON` never returns an error (it is a total
function), and it returns an empty diff list whenever the first (before)
input fails to decode; when the second (after) input fails to decode, the
diff list instead reports every top-level key of the before object as
removed. -/
theorem claim3_decode_failure_behavior :
    (∀ obj2, compareDiffs none obj2 = []) ∧
    (∀ a, compareDiffs (some a) none =
      sortDiffs (a.map fun kv => ⟨renderRemovedKey kv.1, none, none⟩)) := by
  constructor
  · intro obj2
    simp [compareDiffs, findDiffs, diffEntries, sortDiffs]
  · intro a
    have h : ∀ l : List (String × JValue), diffEntries l [] "" =
        l.map fun kv => (⟨renderRemovedKey kv.1, none, none⟩ : DiffResult) := by
      intro l
      induction l with
      | nil => simp [diffEntries]
      | cons kv rest ih =>
        obtain ⟨k, v⟩ := kv
        simp [diffEntries, diffOne, lookupKey, ih]
    simp [compareDiffs, findDiffs, h]

/-- C4 (code bug in the source): a failing repository create is not surfaced.
`CreateVocab` assigns `err = s.repo.CreateVocab(vocab)` and immediately
overwrites `err` with the audit result (src/unnamed/part_007 lines 116-120),
and `CreateFixit` does the same (src/internal/srv/fixit.go lines 87-91): on a
valid input whose repository insert fails while the audit write succeeds,
both return no error even though the insert was attempted and failed. -/
theorem claim4_create_error_swallowed :
    CreateVocab (fun _ => none)
      { ID := 0
        LearningLang := "hola"
        FirstLang := "hello"
        Created := 0
        Alternatives := ""
        Skill := ""
        Infinitive := ""
        Pos := ""
        Hint := ""
        NumLearningWords := 1
        KnownLangCode := "en"
        LearningLangCode := "es" }
      none none (some "repo create vocab failed") none = ⟨none, true⟩ ∧
    CreateFixit (fun _ => none)
      { ID := 0
        VocabID := 1
        Status := "pending"
        FieldName := "hint"
        Comments := ""
        CreatedBy := "sys"
        Created := 0 }
      (some "repo create fixit failed") none = ⟨none, true⟩ := by
  constructor
  · decide
  · decide

/-- C5: an update whose mutable fields all equal the stored record's values
(seven fields for Vocab, three for Fixit) fails with the "has no changes"
error and never invokes the repository update, for any valid input. -/
theorem claim5_noop_update_rejected :
    (∀ decode updating before updErr aErr,
      validateVocabUpdate updating = none →
      before.Hint = updating.Hint → before.Pos = updating.Pos →
      before.Skill = updating.Skill → before.FirstLang = updating.FirstLang →
      before.Infinitive = updating.Infinitive →
      before.Alternatives = updating.Alternatives →
      before.NumLearningWords = updating.NumLearningWords →
      UpdateVocab decode updating none (some before) updErr aErr =
        ⟨none, some ("update for vocab " ++ toString before.ID ++ " has no changes"),
          false⟩) ∧
    (∀ decode updating before updErr aErr,
      validateFixit updating = none →
      before.Status = updating.Status → before.FieldName = updating.FieldName →
      before.Comments = updating.Comments →
      UpdateFixit decode updating none (some before) updErr aErr =
        ⟨none, some ("update for fixit " ++ toString before.ID ++ " has no changes"),
          false⟩) := by
  constructor
  · intro decode updating before updErr aErr hval h₁ h₂ h₃ h₄ h₅ h₆ h₇
    simp [UpdateVocab, hval, Vocab.Clone, h₁, h₂, h₃, h₄, h₅, h₆, h₇]
  · intro decode updating before updErr aErr hval h₁ h₂ h₃
    simp [UpdateFixit, hval, Fixit.Clone, h₁, h₂, h₃]

/-- C5 witness: a concrete no-op Vocab update and Fixit update are both
rejected with the "has no changes" error without touching the repository. -/
theorem claim5_noop_update_rejected_witness :
    UpdateVocab (fun _ => none)
      { ID := 3
        LearningLang := "ser"
        FirstLang := "to be"
        Created := 0
        Alternatives := ""
        Skill := ""
        Infinitive := "ser"
        Pos := "verb"
        Hint := ""
        NumLearningWords := 1
        KnownLangCode := "en"
        LearningLangCode := "es" }
      none
      (some
        { ID := 3
          LearningLang := "ser"
          FirstLang := "to be"
          Created := 0
          Alternatives := ""
          Skill := ""
          Infinitive := "ser"
          Pos := "verb"
          Hint := ""
          NumLearningWords := 1
          KnownLangCode := "en"
          LearningLangCode := "es" })
      none none =
      ⟨none, some ("update for vocab " ++ toString (3 : Int) ++ " has no changes"),
        false⟩ ∧
    UpdateFixit (fun _ => none)
      { ID := 5
        VocabID := 3
        Status := "pending"
        FieldName := "hint"
        Comments := "typo"
        CreatedBy := "sys"
        Created := 0 }
      none
      (some
        { ID := 5
          VocabID := 3
          Status := "pending"
          FieldName := "hint"
          Comments := "typo"
          CreatedBy := "sys"
          Created := 0 })
      none none =
      ⟨none, some ("update for fixit " ++ toString (5 : Int) ++ " has no changes"),
        false⟩ := by
  constructor
  · exact claim5_noop_update_rejected.1 _ _ _ _ _ rfl rfl rfl rfl rfl rfl rfl rfl
  · exact claim5_noop_update_rejected.2 _ _ _ _ _ rfl rfl rfl rfl

/-- C6: creating a Vocab whose `learning_lang` matches an existing record
(the lookup returned a record and no error) fails with a duplicate error
naming the existing record's id, and the repository insert is never
invoked. -/
theorem claim6_duplicate_learning_lang_rejected :
    ∀ decode vocab ex createErr aErr,
      validateVocab vocab = none →
      ex.LearningLang = vocab.LearningLang →
      CreateVocab decode vocab none (some ex) createErr aErr =
        ⟨some ("vocab with learning lang " ++ vocab.LearningLang ++ " and id " ++
          toString ex.ID ++ " already exists"), false⟩ := by
  intro decode vocab ex createErr aErr hval _
  simp [CreateVocab, hval]

/-- C6 witness: a concrete duplicate create is rejected, naming id 7. -/
theorem claim6_duplicate_learning_lang_rejected_witness :
    CreateVocab (fun _ => none)
      { ID := 0
        LearningLang := "hola"
        FirstLang := "hello"
        Created := 0
        Alternatives := ""
        Skill := ""
        Infinitive := ""
        Pos := ""
        Hint := ""
        NumLearningWords := 1
        KnownLangCode := "en"
        LearningLangCode := "es" }
      none
      (some
        { ID := 7
          LearningLang := "hola"
          FirstLang := "hi"
          Created := 0
          Alternatives := ""
          Skill := ""
          Infinitive := ""
          Pos := ""
          Hint := ""
          NumLearningWords := 1
          KnownLangCode := "en"
          LearningLangCode := "es" })
      none none =
      ⟨some ("vocab with learning lang " ++ "hola" ++ " and id " ++
        toString (7 : Int) ++ " already exists"), false⟩ := by
  exact claim6_duplicate_learning_lang_rejected _ _ _ _ _ rfl rfl

/-- C7: building a Vocab or Fixit audit with a nil `after` always fails with
the "after value ... required" error, for every comment, creator and
`before` value, and no record is handed to the audit repository. -/
theorem claim7_nil_after_rejected :
    ∀ decode repoErr comments createdBy (beforeV : Option Vocab) (beforeF : Option Fixit),
      CreateVocabAudit decode repoErr comments createdBy beforeV none =
        ⟨some "after value for vocab is required", none⟩ ∧
      CreateFixitAudit decode repoErr comments createdBy beforeF none =
        ⟨some "after value for fixit is required", none⟩ :=
  fun _ _ _ _ _ _ => ⟨rfl, rfl⟩

/-- C8: building a Vocab or Fixit audit from a before/after pair with
differing identities always fails with the identity-mismatch error naming
both ids, and no record is handed to the audit repository. -/
theorem claim8_id_mismatch_rejected :
    ∀ decode repoErr comments createdBy (b a : Vocab) (bf af : Fixit),
      b.ID ≠ a.ID → bf.ID ≠ af.ID →
      CreateVocabAudit decode repoErr comments createdBy (some b) (some a) =
        ⟨some ("audit before id " ++ toString b.ID ++ " and after id " ++
          toString a.ID ++ " mismatch"), none⟩ ∧
      CreateFixitAudit decode repoErr comments createdBy (some bf) (some af) =
        ⟨some ("fixit before id " ++ toString bf.ID ++ " and after id " ++
          toString af.ID ++ " mismatch"), none⟩ := by
  intro decode repoErr comments createdBy b a bf af hv hf
  constructor
  · simp [CreateVocabAudit, hv]
  · simp [CreateFixitAudit, hf]

/-- C8 witness: a concrete mismatched pair (ids 1 and 2 for Vocab, 3 and 4
for Fixit) is rejected with the error naming both ids. -/
theorem claim8_id_mismatch_rejected_witness :
    CreateVocabAudit (fun _ => none) none "c" "u"
      (some
        { ID := 1
          LearningLang := "ser"
          FirstLang := ""
          Created := 0
          Alternatives := ""
          Skill := ""
          Infinitive := ""
          Pos := ""
          Hint := ""
          NumLearningWords := 1
          KnownLangCode := "en"
          LearningLangCode := "es" })
      (some
        { ID := 2
          LearningLang := "ser"
          FirstLang := ""
          Created := 0
          Alternatives := ""
          Skill := ""
          Infinitive := ""
          Pos := ""
          Hint := ""
          NumLearningWords := 1
          KnownLangCode := "en"
          LearningLangCode := "es" }) =
      ⟨some ("audit before id " ++ toString (1 : Int) ++ " and after id " ++
        toString (2 : Int) ++ " mismatch"), none⟩ ∧
    CreateFixitAudit (fun _ => none) none "c" "u"
      (some
        { ID := 3
          VocabID := 1
          Status := "pending"
          FieldName := ""
          Comments := ""
          CreatedBy := "sys"
          Created := 0 })
      (some
        { ID := 4
          VocabID := 1
          Status := "pending"
          FieldName := ""
          Comments := ""
          CreatedBy := "sys"
          Created := 0 }) =
      ⟨some ("fixit before id " ++ toString (3 : Int) ++ " and after id " ++
        toString (4 : Int) ++ " mismatch"), none⟩ := by
  exact claim8_id_mismatch_rejected _ _ _ _ _ _ _ _ (by decide) (by decide)

/-- C9: the time-range conversion defaults an absent start to one hour before
now and an absent end to now, and (whenever both bounds resolve, by default
or by successful parse) it returns the validation error exactly when the
resolved start is strictly after the resolved end — equal bounds are
accepted. -/
theorem claim9_duration_defaults_validation :
    (∀ parse now₁ now₂, GqlDateTimeToDuration parse now₁ now₂ "" "" =
      if now₁ - nanosPerHour > now₂ then Except.error "start time must be before end time"
      else Except.ok ⟨now₁ - nanosPerHour, now₂⟩) ∧
    (∀ parse now₁ now₂ s e ts te,
      resolveTime parse (now₁ - nanosPerHour) s = some ts →
      resolveTime parse now₂ e = some te →
      GqlDateTimeToDuration parse now₁ now₂ s e =
        if ts > te then Except.error "start time must be before end time"
        else Except.ok ⟨ts, te⟩) := by
  constructor
  · intro parse now₁ now₂
    rfl
  · intro parse now₁ now₂ s e ts te hs he
    unfold GqlDateTimeToDuration
    rw [hs, he]

/-- C9 witness: with both bounds absent the defaults `now - 1h` and `now`
are used and accepted; with parsed bounds, equal start and end are accepted
and a later start is rejected. -/
theorem claim9_duration_defaults_validation_witness :
    GqlDateTimeToDuration (fun _ => none) 7 3 "" "" =
      Except.ok ⟨7 - nanosPerHour, 3⟩ ∧
    GqlDateTimeToDuration (fun _ => some 5) 0 0 "a" "b" = Except.ok ⟨5, 5⟩ ∧
    GqlDateTimeToDuration (fun s => if s = "a" then some 9 else some 5) 0 0 "a" "b" =
      Except.error "start time must be before end time" := by
  refine ⟨?_, ?_, ?_⟩
  · have h := claim9_duration_defaults_validation.1 (fun _ => none) 7 3
    rw [h]
    norm_num [nanosPerHour]
  · have h := claim9_duration_defaults_validation.2 (fun _ => some 5) 0 0 "a" "b" 5 5
      (by simp [resolveTime]) (by simp [resolveTime])
    rw [h]
    norm_num
  · have h := claim9_duration_defaults_validation.2
      (fun s => if s = "a" then some 9 else some 5) 0 0 "a" "b" 9 5
      (by simp [resolveTime]) (by simp [resolveTime])
    rw [h]
    norm_num

/-- C10: whenever `UpdateVocab` produces a record (the record handed to the
repository update and returned to the caller), that record keeps the stored
before-state's `ID`, `LearningLang`, `Created`, `KnownLangCode` and
`LearningLangCode`, and takes exactly `Hint`, `Pos`, `Skill`, `FirstLang`,
`Infinitive`, `Alternatives` and `NumLearningWords` from the incoming
update. -/
theorem claim10_update_frame :
    ∀ decode updating findErr before updErr aErr v',
      (UpdateVocab decode updating findErr (some before) updErr aErr).vocab = some v' →
      v'.ID = before.ID ∧ v'.LearningLang = before.LearningLang ∧
      v'.Created = before.Created ∧ v'.KnownLangCode = before.KnownLangCode ∧
      v'.LearningLangCode = before.LearningLangCode ∧
      v'.Hint = updating.Hint ∧ v'.Pos = updating.Pos ∧ v'.Skill = updating.Skill ∧
      v'.FirstLang = updating.FirstLang ∧ v'.Infinitive = updating.Infinitive ∧
      v'.Alternatives = updating.Alternatives ∧
      v'.NumLearningWords = updating.NumLearningWords := by
  intro decode updating findErr before updErr aErr v' h
  rw [UpdateVocab.eq_def] at h
  cases hval : validateVocabUpdate updating with
  | some e =>
    rw [hval] at h
    simp at h
  | none =>
    rw [hval] at h
    cases findErr with
    | some e => simp at h
    | none =>
      simp only [Vocab.Clone] at h
      by_cases hc : before.Hint ≠ updating.Hint ∨ before.Pos ≠ updating.Pos ∨
          before.Skill ≠ updating.Skill ∨ before.FirstLang ≠ updating.FirstLang ∨
          before.Infinitive ≠ updating.Infinitive ∨
          before.Alternatives ≠ updating.Alternatives ∨
          before.NumLearningWords ≠ updating.NumLearningWords
      · rw [if_pos hc] at h
        cases updErr with
        | some e =>
          obtain rfl := Option.some.inj h
          exact ⟨rfl, rfl, rfl, rfl, rfl, rfl, rfl, rfl, rfl, rfl, rfl, rfl⟩
        | none =>
          obtain rfl := Option.some.inj h
          exact ⟨rfl, rfl, rfl, rfl, rfl, rfl, rfl, rfl, rfl, rfl, rfl, rfl⟩
      · rw [if_neg hc] at h
        simp at h

/-- C10 witness: a concrete update changing only the hint keeps the stored
identity, learning text, creation time and both language codes. -/
theorem claim10_update_frame_witness :
    ((1 : Int) = 1 ∧ "ser" = "ser" ∧ (0 : Int) = 0 ∧ "en" = "en" ∧ "es" = "es" ∧
      "new hint" = "new hint" ∧ "verb" = "verb" ∧ "" = "" ∧ "to be" = "to be" ∧
      "ser" = "ser" ∧ "" = "" ∧ (1 : Int) = 1) := by
  exact claim10_update_frame (fun _ => none)
    { ID := 9
      LearningLang := "soy"
      FirstLang := "to be"
      Created := 4
      Alternatives := ""
      Skill := ""
      Infinitive := "ser"
      Pos := "verb"
      Hint := "new hint"
      NumLearningWords := 1
      KnownLangCode := "fr"
      LearningLangCode := "de" }
    none
    { ID := 1
      LearningLang := "ser"
      FirstLang := "was"
      Created := 0
      Alternatives := "x"
      Skill := "y"
      Infinitive := "z"
      Pos := "noun"
      Hint := "old hint"
      NumLearningWords := 2
      KnownLangCode := "en"
      LearningLangCode := "es" }
    none none
    { ID := 1
      LearningLang := "ser"
      FirstLang := "to be"
      Created := 0
      Alternatives := ""
      Skill := ""
      Infinitive := "ser"
      Pos := "verb"
      Hint := "new hint"
      NumLearningWords := 1
      KnownLangCode := "en"
      LearningLangCode := "es" }
    rfl

end Translator
